import Mathlib

/-!
# Verification of the opcode process registry (`src-tauri/src/process/registry.rs`)

Shallow embedding of the subprocess supervision registry: the
`CircularOutputBuffer` (a dual-limited line/byte ring of output text), the
`ProcessRegistry` (an id-keyed table of process records), and the termination
protocol (`kill_process` / `kill_process_by_pid` / `cleanup_finished_processes`).

Modelling conventions:
* Rust strings are byte sequences; we model them as `List Char` with one `Char`
  standing for one byte (all inputs considered are ASCII, where Rust's
  byte-indexed `len`, slicing and `ends_with('\n')` coincide with list length,
  `List.drop` and `getLast?`).
* `VecDeque<String>` becomes `List (List Char)`, front first: `push_back` is
  append at the tail, `pop_front` takes the head.
* `usize` arithmetic becomes `Nat` (the subtraction in `enforce_limits` never
  underflows because `current_bytes` always dominates the stored lengths, so
  truncated `Nat` subtraction agrees with Rust).
* The `HashMap<i64, ProcessHandle>` becomes an association list with unique
  keys (`Int × ProcessHandle`); `insert` replaces, `remove` deletes the key.
* Lock acquisition never fails in the model (the spec claims under scrutiny
  all assume no lock poisoning); `Result<T, String>` collapses to `T` where
  the only `Err` source is a poisoned lock, and stays `Except` where the
  kill facility itself can fail.
* The `while` loop of `enforce_limits` makes no progress once the deque is
  empty while `current_bytes > max_bytes` still holds (`pop_front` returns
  `None` and nothing changes), i.e. the Rust code loops forever in that
  state.  The model therefore returns `Option`: `none` models exactly that
  divergence, `some` the loop exiting normally.
* OS-level nondeterminism (whether `start_kill` succeeds, what the fallback
  `kill` command reports, how the 5s `try_wait` polling phase ends) is an
  explicit oracle (`KillEnv`) passed to the functions that consume it.
-/

/-- The `CircularOutputBuffer` from registry.rs: an ordered line buffer with a
line-count cap, a byte cap and a running byte total. -/
structure CircularOutputBuffer where
  buffer : List (List Char)
  max_lines : Nat
  max_bytes : Nat
  current_bytes : Nat
deriving DecidableEq, Repr

namespace CircularOutputBuffer

/-- The `CircularOutputBuffer::new`: clamps `max_lines` to `[10, 10000]` and
`max_bytes` to `[1024, 100*1024*1024]`, starting empty. -/
def new (maxLines maxBytes : Nat) : CircularOutputBuffer :=
  { buffer := []
    max_lines := min (max maxLines 10) 10000
    max_bytes := min (max maxBytes 1024) (100 * 1024 * 1024)
    current_bytes := 0 }

/-- The `CircularOutputBuffer::enforce_limits`: the front-eviction loop
`while len > max_lines || current_bytes > max_bytes { pop_front; subtract }`.
When the buffer is empty but `current_bytes > max_bytes` still holds, the
Rust loop makes no progress (`pop_front` is `None`) and spins forever; the
model returns `none` exactly there. -/
def enforce_limits (maxLines maxBytes : Nat) :
    List (List Char) → Nat → Option (List (List Char) × Nat)
  | [], cur =>
      -- `[].length > maxLines` is impossible; the loop guard degenerates to
      -- the byte check, under which `pop_front` can no longer make progress.
      if maxBytes < cur then none else some ([], cur)
  | l :: rest, cur =>
      if maxLines < (l :: rest).length ∨ maxBytes < cur then
        enforce_limits maxLines maxBytes rest (cur - l.length)
      else
        some (l :: rest, cur)

/-- The `CircularOutputBuffer::append`: no-op on empty input; ensures a trailing
newline; truncates the (normalized) line to its trailing `max_bytes` bytes if
oversized, but — exactly as the source does — adds the *pre-truncation*
length `line_bytes` to `current_bytes`; pushes; then runs `enforce_limits`.
`none` models the divergence of `enforce_limits`. -/
def append (b : CircularOutputBuffer) (output : List Char) :
    Option CircularOutputBuffer :=
  if output.isEmpty then some b
  else
    let line := if output.getLast? = some '\n' then output else output ++ ['\n']
    let line_bytes := line.length
    let line' := if b.max_bytes < line_bytes then
        line.drop (line.length - b.max_bytes)
      else line
    match enforce_limits b.max_lines b.max_bytes (b.buffer ++ [line'])
        (b.current_bytes + line_bytes) with
    | none => none
    | some (buf, cur) => some { b with buffer := buf, current_bytes := cur }

/-- The `CircularOutputBuffer::get_recent`: concatenation of the last
`min(lines, len)` stored lines; empty when that count is zero. -/
def get_recent (b : CircularOutputBuffer) (lines : Nat) : List Char :=
  let lines_to_get := min lines b.buffer.length
  if lines_to_get = 0 then []
  else
    let start_idx := b.buffer.length - lines_to_get
    (b.buffer.drop start_idx).flatten

/-- The `CircularOutputBuffer::get_all`: concatenation of every stored line. -/
def get_all (b : CircularOutputBuffer) : List Char :=
  b.buffer.flatten

/-- The `CircularOutputBuffer::clear`. -/
def clear (b : CircularOutputBuffer) : CircularOutputBuffer :=
  { b with buffer := [], current_bytes := 0 }

/-- The `CircularOutputBuffer::len`: number of stored lines. -/
def len (b : CircularOutputBuffer) : Nat :=
  b.buffer.length

/-- The `CircularOutputBuffer::is_empty`. -/
def is_empty (b : CircularOutputBuffer) : Bool :=
  b.buffer.isEmpty

/-- The `CircularOutputBuffer::total_bytes`: the running byte total. -/
def total_bytes (b : CircularOutputBuffer) : Nat :=
  b.current_bytes

end CircularOutputBuffer

/-- Folding `append` over a list of chunks (a sequence of `append` calls),
propagating divergence. -/
def appendAll (b : CircularOutputBuffer) : List (List Char) → Option CircularOutputBuffer
  | [] => some b
  | c :: rest =>
      match b.append c with
      | none => none
      | some b' => appendAll b' rest

/-! ## Registry data model -/

/-- The `ProcessType` from registry.rs. -/
inductive ProcessType
  | AgentRun (agent_id : Int) (agent_name : List Char)
  | ClaudeSession (session_id : List Char)
deriving DecidableEq, Repr

/-- The `ProcessInfo` from registry.rs; `started_at` is an abstract timestamp. -/
structure ProcessInfo where
  run_id : Int
  process_type : ProcessType
  pid : Nat
  started_at : Nat
  project_path : List Char
  task : List Char
  model : List Char
deriving DecidableEq, Repr

/-- What one `try_wait` probe of a held `tokio::process::Child` would report:
still running, exited, or the status check itself errors. -/
inductive ChildStatus
  | running
  | exited
  | probeError
deriving DecidableEq, Repr

/-- The `ProcessHandle` from registry.rs.  `child = none` models
`Option<Child>` being `None` (sidecar/session records, or a reaped child). -/
structure ProcessHandle where
  info : ProcessInfo
  child : Option ChildStatus
  live_output : CircularOutputBuffer
deriving DecidableEq, Repr

/-- The `HashMap<i64, ProcessHandle>` as an association list; every reachable
registry keeps its keys `Nodup`. -/
abbrev ProcMap := List (Int × ProcessHandle)

namespace ProcMap

/-- The `HashMap::get`. -/
def get : ProcMap → Int → Option ProcessHandle
  | [], _ => none
  | (k, h) :: rest, i => if k = i then some h else get rest i

/-- The `HashMap::remove`. -/
def remove : ProcMap → Int → ProcMap
  | [], _ => []
  | (k, h) :: rest, i =>
      if k = i then remove rest i else (k, h) :: remove rest i

/-- The `HashMap::insert` — replaces any record already stored under the key. -/
def insert (m : ProcMap) (i : Int) (h : ProcessHandle) : ProcMap :=
  (i, h) :: m.remove i

/-- In-place update of the record stored at a key, modelling mutation through
the record's shared `Arc<Mutex<_>>` fields (child handle, output buffer). -/
def modify : ProcMap → Int → (ProcessHandle → ProcessHandle) → ProcMap
  | [], _, _ => []
  | (k, h) :: rest, i, f =>
      if k = i then (k, f h) :: modify rest i f
      else (k, h) :: modify rest i f

/-- The `HashMap::keys`. -/
def keys (m : ProcMap) : List Int := m.map Prod.fst

end ProcMap

/-- Outcome of one invocation of the OS-level kill facility inside
`kill_process_by_pid` (`taskkill`, or `kill` with its internal
TERM → 2s grace → KILL escalation): the command ran and reported success,
ran and reported failure, or could not be executed at all. -/
inductive KillCmdResult
  | success
  | failure
  | execError
deriving DecidableEq, Repr

/-- How the 5-second `try_wait` polling phase of `kill_process` ends. -/
inductive WaitResult
  | exited
  | waitError
  | timedOut
deriving DecidableEq, Repr

/-- Oracle for the OS-dependent outcomes observed during one `kill_process`
call: whether `child.start_kill()` would succeed, what the first fallback
`kill_process_by_pid` reports, how the wait phase ends, and what the
post-timeout best-effort `kill_process_by_pid` reports. -/
structure KillEnv where
  start_kill_ok : Bool
  fallback : KillCmdResult
  wait : WaitResult
  timeout_fallback : KillCmdResult
deriving DecidableEq, Repr

/-- The `ProcessRegistry` from registry.rs: the process table plus the
auto-increment counter seeded at 1,000,000. -/
structure ProcessRegistry where
  processes : ProcMap
  next_id : Int
deriving DecidableEq, Repr

namespace ProcessRegistry

/-- The `ProcessRegistry::new`. -/
def new : ProcessRegistry := ⟨[], 1000000⟩

/-- The `ProcessRegistry::default_buffer_config`: 1000 lines or 1MB. -/
def default_buffer_config : Nat × Nat := (1000, 1024 * 1024)

/-- The `ProcessRegistry::generate_id`: returns the counter value and bumps it. -/
def generate_id (r : ProcessRegistry) : Int × ProcessRegistry :=
  (r.next_id, { r with next_id := r.next_id + 1 })

/-- The `ProcessRegistry::create_handle`. -/
def create_handle (info : ProcessInfo) (child : Option ChildStatus) :
    ProcessHandle :=
  { info := info
    child := child
    live_output :=
      CircularOutputBuffer.new default_buffer_config.1 default_buffer_config.2 }

/-- The `ProcessRegistry::register_process_internal`: builds a fresh handle and
`HashMap::insert`s it under `run_id`. -/
def register_process_internal (r : ProcessRegistry) (run_id : Int)
    (info : ProcessInfo) (child : Option ChildStatus) : ProcessRegistry :=
  { r with processes := r.processes.insert run_id (create_handle info child) }

/-- The `ProcessRegistry::unregister_process`. -/
def unregister_process (r : ProcessRegistry) (run_id : Int) : ProcessRegistry :=
  { r with processes := r.processes.remove run_id }

/-- The `ProcessRegistry::get_process`. -/
def get_process (r : ProcessRegistry) (run_id : Int) : Option ProcessInfo :=
  (r.processes.get run_id).map (·.info)

/-- Clearing the child handle of a record in place
(`*child_guard = None` through the shared `Arc`). -/
def clear_child (r : ProcessRegistry) (run_id : Int) : ProcessRegistry :=
  { r with processes :=
      r.processes.modify run_id (fun h => { h with child := none }) }

/-- The `ProcessRegistry::kill_process_by_pid`: runs the OS kill facility; on
reported success removes the record and returns `true`; on reported failure
returns `false` leaving the table untouched; if the facility cannot be
executed, the error is surfaced. -/
def kill_process_by_pid (env : KillCmdResult) (r : ProcessRegistry)
    (run_id : Int) (pid : Nat) : Except (List Char) (Bool × ProcessRegistry) :=
  match env with
  | .success => .ok (true, r.unregister_process run_id)
  | .failure => .ok (false, r)
  | .execError => .error ("Failed to execute kill command".toList)

/-- The wait-for-exit phase plus final cleanup of `kill_process`: the 100ms
poll loop ends as `env.wait` dictates (clearing the handle on a confirmed
exit, leaving it on a probe error, force-clearing it and making one
best-effort pid kill — whose result is discarded — on timeout), after which
the record is unconditionally unregistered and `true` returned.  When the
record holds no child handle the loop exits at once, which is the
`WaitResult.exited` case. -/
def kill_wait_cleanup (env : KillEnv) (r : ProcessRegistry) (run_id : Int)
    (pid : Nat) : Bool × ProcessRegistry :=
  let r1 := match env.wait with
    | .exited => r.clear_child run_id
    | .waitError => r
    | .timedOut =>
        let r' := r.clear_child run_id
        match kill_process_by_pid env.timeout_fallback r' run_id pid with
        | .ok q => q.2
        | .error _ => r'
  (true, r1.unregister_process run_id)

/-- The `ProcessRegistry::kill_process` (locks never poisoned in the model):
lookup — absent ids return `false` untouched; otherwise `start_kill` through
the handle when one is held; on no handle or failed signal, one fallback
`kill_process_by_pid`, returning `true` immediately if it succeeded (it has
already removed the record); otherwise the wait-and-cleanup phase. -/
def kill_process (env : KillEnv) (r : ProcessRegistry) (run_id : Int) :
    Bool × ProcessRegistry :=
  match r.processes.get run_id with
  | none => (false, r)
  | some handle =>
      let pid := handle.info.pid
      let kill_sent := handle.child.isSome && env.start_kill_ok
      if kill_sent then
        kill_wait_cleanup env r run_id pid
      else
        match kill_process_by_pid env.fallback r run_id pid with
        | .ok (true, r') => (true, r')
        | .ok (false, r') => kill_wait_cleanup env r' run_id pid
        | .error _ => kill_wait_cleanup env r run_id pid

/-- The `ProcessRegistry::is_process_running`: probes the child handle stored at
`run_id`; clears it in place (lazy reclamation) when the probe reports an
exit or errors; `false` when no record or no handle is held. -/
def is_process_running (r : ProcessRegistry) (run_id : Int) :
    Bool × ProcessRegistry :=
  match r.processes.get run_id with
  | none => (false, r)
  | some handle =>
      match handle.child with
      | none => (false, r)
      | some .running => (true, r)
      | some .exited => (false, r.clear_child run_id)
      | some .probeError => (false, r.clear_child run_id)

/-- The `ProcessRegistry::append_live_output`: silently succeeds on unknown ids;
otherwise appends to the record's buffer (`none` models the divergence of
`CircularOutputBuffer::append`). -/
def append_live_output (r : ProcessRegistry) (run_id : Int)
    (output : List Char) : Option ProcessRegistry :=
  match r.processes.get run_id with
  | none => some r
  | some handle =>
      match handle.live_output.append output with
      | none => none
      | some buf =>
          some { r with processes :=
            r.processes.modify run_id (fun h => { h with live_output := buf }) }

/-- The `ProcessRegistry::get_live_output`: empty string on unknown ids. -/
def get_live_output (r : ProcessRegistry) (run_id : Int) : List Char :=
  match r.processes.get run_id with
  | none => []
  | some handle => handle.live_output.get_all

/-- The `ProcessRegistry::get_recent_live_output`: empty string on unknown ids. -/
def get_recent_live_output (r : ProcessRegistry) (run_id : Int)
    (lines : Nat) : List Char :=
  match r.processes.get run_id with
  | none => []
  | some handle => handle.live_output.get_recent lines

/-- Phase one of `cleanup_finished_processes`: walk the snapshotted ids,
probing each with `is_process_running` (whose lazy handle-clearing threads
through), collecting the ids found not running, in order. -/
def cleanup_pass : ProcessRegistry → List Int → List Int × ProcessRegistry
  | r, [] => ([], r)
  | r, run_id :: rest =>
      let p := is_process_running r run_id
      let q := cleanup_pass p.2 rest
      (if p.1 then q.1 else run_id :: q.1, q.2)

/-- The `ProcessRegistry::cleanup_finished_processes`: snapshot all ids, probe
each with `is_process_running`, then remove every id found not running;
returns the removed ids. -/
def cleanup_finished_processes (r : ProcessRegistry) :
    List Int × ProcessRegistry :=
  let q := cleanup_pass r r.processes.keys
  (q.1, q.1.foldl (fun acc run_id => acc.unregister_process run_id) q.2)

end ProcessRegistry

/-- The mutating operations of the registry surface, with the OS-outcome
oracles carried as arguments; used to state which operations can make a
registered id disappear from the table. -/
inductive RegOp
  | register (run_id : Int) (info : ProcessInfo) (child : Option ChildStatus)
  | unregister (run_id : Int)
  | kill (env : KillEnv) (run_id : Int)
  | killByPid (env : KillCmdResult) (run_id : Int) (pid : Nat)
  | cleanup
  | appendOutput (run_id : Int) (text : List Char)
  | isRunning (run_id : Int)
deriving DecidableEq, Repr

/-- One mutating call against the registry.  `none` models divergence of a
buffer append inside `append_live_output`; a `killByPid` whose kill facility
errors leaves the table unchanged (the error propagates to the caller). -/
def RegOp.step : RegOp → ProcessRegistry → Option ProcessRegistry
  | .register run_id info child, r =>
      some (r.register_process_internal run_id info child)
  | .unregister run_id, r => some (r.unregister_process run_id)
  | .kill env run_id, r => some (ProcessRegistry.kill_process env r run_id).2
  | .killByPid env run_id pid, r =>
      match ProcessRegistry.kill_process_by_pid env r run_id pid with
      | .ok q => some q.2
      | .error _ => some r
  | .cleanup, r => some (ProcessRegistry.cleanup_finished_processes r).2
  | .appendOutput run_id text, r =>
      ProcessRegistry.append_live_output r run_id text
  | .isRunning run_id, r =>
      some (ProcessRegistry.is_process_running r run_id).2

/-- Does a stored child handle probe as still running?  (`is_process_running`
restricted to the stored record.) -/
def childRunning : Option ChildStatus → Bool
  | some .running => true
  | _ => false

/-- Concrete sample data for witnesses. -/
def sampleInfo : ProcessInfo :=
  { run_id := 1
    process_type := .AgentRun 7 ['a', 'g']
    pid := 4242
    started_at := 0
    project_path := ['/']
    task := ['t']
    model := ['m'] }

/-- A sample registry holding `sampleInfo` under run id 1 with no child. -/
def sampleReg : ProcessRegistry :=
  ProcessRegistry.new.register_process_internal 1 sampleInfo none

/-- A sample kill-outcome oracle. -/
def sampleEnv : KillEnv :=
  { start_kill_ok := true
    fallback := .failure
    wait := .timedOut
    timeout_fallback := .failure }

/-- A copy of `sampleInfo` with a different task text. -/
def sampleInfoB : ProcessInfo := { sampleInfo with task := ['u'] }

/-- A three-record registry: id 1 running, id 2 exited, id 3 no handle. -/
def sampleReg3 : ProcessRegistry :=
  { processes :=
      [(1, { info := sampleInfo, child := some .running
             live_output := CircularOutputBuffer.new 1000 (1024 * 1024) }),
       (2, { info := sampleInfo, child := some .exited
             live_output := CircularOutputBuffer.new 1000 (1024 * 1024) }),
       (3, { info := sampleInfo, child := none
             live_output := CircularOutputBuffer.new 1000 (1024 * 1024) })]
    next_id := 1000000 }

/-! ## Buffer lemmas -/

/-- On an empty buffer, appending a newline-terminated chunk strictly longer
than `max_bytes` leaves an *empty* buffer whose byte counter holds the excess
`c.length - max_bytes` — or diverges when that excess itself exceeds
`max_bytes`.  This is the consequence of `append` charging `current_bytes`
with the pre-truncation length: `enforce_limits` then evicts the freshly
truncated line itself. -/
theorem append_oversized (mL mB : Nat) (c : List Char)
    (hend : c.getLast? = some '\n')
    (hlen : mB < c.length) :
    CircularOutputBuffer.append ⟨[], mL, mB, 0⟩ c =
      if mB < c.length - mB then none
      else some ⟨[], mL, mB, c.length - mB⟩ := by
  have hisE : c.isEmpty = false := by
    cases c with
    | nil => simp at hend
    | cons x xs => rfl
  have hsub : c.length - (c.length - mB) = mB := by omega
  simp only [CircularOutputBuffer.append, hisE, Bool.false_eq_true, if_false,
    hend, eq_self_iff_true, ite_true, hlen, List.nil_append, Nat.zero_add,
    CircularOutputBuffer.enforce_limits, List.length_cons, List.length_nil,
    List.length_drop, hsub, or_true]
  by_cases hc : mB < c.length - mB
  case pos => rw [if_pos hc, if_pos hc]
  case neg => rw [if_neg hc, if_neg hc]

/-- The loop `enforce_limits` only returns normally when both caps hold on the result:
the loop exits exactly when `len ≤ max_lines` and `current_bytes ≤ max_bytes`. -/
theorem enforce_limits_le (mL mB : Nat) (buf : List (List Char)) :
    ∀ cur buf' cur',
      CircularOutputBuffer.enforce_limits mL mB buf cur = some (buf', cur') →
      buf'.length ≤ mL ∧ cur' ≤ mB := by
  induction buf with
  | nil =>
    intro cur buf' cur' h
    unfold CircularOutputBuffer.enforce_limits at h
    split at h
    · exact Option.noConfusion h
    · rename_i hcond
      injection h with h'
      injection h' with h1 h2
      subst h1; subst h2
      exact ⟨Nat.zero_le _, by omega⟩
  | cons l rest ih =>
    intro cur buf' cur' h
    unfold CircularOutputBuffer.enforce_limits at h
    split at h
    · exact ih _ _ _ h
    · rename_i hcond
      push_neg at hcond
      injection h with h'
      injection h' with h1 h2
      subst h1; subst h2
      exact ⟨hcond.1, hcond.2⟩

/-- A completed `append` preserves the dual-cap invariant. -/
theorem append_inv (b : CircularOutputBuffer) (c : List Char)
    (b' : CircularOutputBuffer) (h : b.append c = some b')
    (hb : b.buffer.length ≤ b.max_lines ∧ b.current_bytes ≤ b.max_bytes) :
    b'.buffer.length ≤ b'.max_lines ∧ b'.current_bytes ≤ b'.max_bytes := by
  unfold CircularOutputBuffer.append at h
  split at h
  · injection h with h'; subst h'; exact hb
  · split at h <;>
      (dsimp only [] at h
       split at h
       · exact Option.noConfusion h
       · rename_i buf cur heq
         injection h with h'
         subst h'
         exact enforce_limits_le _ _ _ _ _ _ heq)

/-- A completed sequence of `append`s preserves the dual-cap invariant. -/
theorem appendAll_inv (chunks : List (List Char)) :
    ∀ b s : CircularOutputBuffer, appendAll b chunks = some s →
      b.buffer.length ≤ b.max_lines ∧ b.current_bytes ≤ b.max_bytes →
      s.buffer.length ≤ s.max_lines ∧ s.current_bytes ≤ s.max_bytes := by
  induction chunks with
  | nil =>
    intro b s h hb
    injection h with h'
    subst h'
    exact hb
  | cons c rest ih =>
    intro b s h hb
    unfold appendAll at h
    split at h
    · exact Option.noConfusion h
    · rename_i b1 heq
      exact ih b1 s h (append_inv b c b1 heq hb)

/-! ## Claim theorems about the buffer -/

/-- C2: for every buffer created with any limits and every sequence of
`append` calls, after each completed `append` the number of retained lines is
at most `max_lines` and `total_bytes` is at most `max_bytes`.  (Intermediate
states are covered by instantiating `chunks` with each prefix of the
sequence; `appendAll` over a prefix is exactly the state after that
`append`.) -/
theorem append_sequence_respects_limits (mL mB : Nat) (chunks : List (List Char))
    (s : CircularOutputBuffer)
    (h : appendAll (CircularOutputBuffer.new mL mB) chunks = some s) :
    s.len ≤ s.max_lines ∧ s.total_bytes ≤ s.max_bytes :=
  appendAll_inv chunks _ s h ⟨Nat.zero_le _, Nat.zero_le _⟩

/-- Witness for C2 at a concrete input: two appends to `new 100 2000`. -/
theorem append_sequence_respects_limits_witness :
    (⟨[['a', '\n'], ['b', '\n']], 100, 2000, 4⟩ : CircularOutputBuffer).len ≤
        (⟨[['a', '\n'], ['b', '\n']], 100, 2000, 4⟩ : CircularOutputBuffer).max_lines ∧
      (⟨[['a', '\n'], ['b', '\n']], 100, 2000, 4⟩ : CircularOutputBuffer).total_bytes ≤
        (⟨[['a', '\n'], ['b', '\n']], 100, 2000, 4⟩ : CircularOutputBuffer).max_bytes :=
  append_sequence_respects_limits 100 2000 [['a'], ['b']]
    ⟨[['a', '\n'], ['b', '\n']], 100, 2000, 4⟩ rfl

/-- C1 (code bug): on a fresh buffer with `max_bytes = 2000`, appending a
newline-terminated chunk of 2001 bytes does *not* retain the last 2000 bytes
with the byte total accounting for the truncated line.  The source adds the
pre-truncation length (2001) to `current_bytes`, so `enforce_limits` evicts
the freshly truncated line: the buffer ends empty with a phantom byte total
of 1. -/
theorem append_oversized_truncation_bug :
    CircularOutputBuffer.append (CircularOutputBuffer.new 100 2000)
      (List.replicate 2000 'a' ++ ['\n'])
    = some ⟨[], 100, 2000, 1⟩ := by
  have hlen : (List.replicate 2000 'a' ++ ['\n'] : List Char).length = 2001 := by
    simp only [List.length_append, List.length_replicate, List.length_cons,
      List.length_nil]
  have h := append_oversized 100 2000 (List.replicate 2000 'a' ++ ['\n'])
    (List.getLast?_concat _) (by rw [hlen]; omega)
  rw [show CircularOutputBuffer.new 100 2000
      = (⟨[], 100, 2000, 0⟩ : CircularOutputBuffer) from rfl]
  rw [h, hlen]
  norm_num

/-- C3 (code bug): `append` does not terminate on every input.  On a fresh
buffer with `max_bytes = 2000`, a chunk of 4002 bytes leaves
`current_bytes = 2002 > max_bytes` after the only line has been evicted;
`pop_front` on the empty deque then makes no progress and the Rust
`enforce_limits` loop spins forever (modelled as `none`). -/
theorem append_nontermination :
    CircularOutputBuffer.append (CircularOutputBuffer.new 100 2000)
      (List.replicate 4001 'a' ++ ['\n']) = none := by
  have hlen : (List.replicate 4001 'a' ++ ['\n'] : List Char).length = 4002 := by
    simp only [List.length_append, List.length_replicate, List.length_cons,
      List.length_nil]
  have h := append_oversized 100 2000 (List.replicate 4001 'a' ++ ['\n'])
    (List.getLast?_concat _) (by rw [hlen]; omega)
  rw [show CircularOutputBuffer.new 100 2000
      = (⟨[], 100, 2000, 0⟩ : CircularOutputBuffer) from rfl]
  rw [h, hlen]
  norm_num

/-- C4 counterexample: with `max_lines = 3` (clamped up to 10 by `new`),
appending "a", "b", "c", "d" does *not* yield `"b\nc\nd\n"` — nothing is
evicted. -/
theorem scenario_max_lines_three_counterexample :
    (appendAll (CircularOutputBuffer.new 3 (1024 * 1024))
        [['a'], ['b'], ['c'], ['d']]).map CircularOutputBuffer.get_all
      ≠ some ('b' :: '\n' :: 'c' :: '\n' :: 'd' :: '\n' :: []) := by
  decide

/-- C4 amended: `max_lines = 3` is clamped to the minimum of 10 by
`CircularOutputBuffer::new`, so appending "a", "b", "c", "d" evicts nothing
and `all()` yields `"a\nb\nc\nd\n"`. -/
theorem scenario_max_lines_three_amended :
    (appendAll (CircularOutputBuffer.new 3 (1024 * 1024))
        [['a'], ['b'], ['c'], ['d']]).map CircularOutputBuffer.get_all
      = some ('a' :: '\n' :: 'b' :: '\n' :: 'c' :: '\n' :: 'd' :: '\n' :: []) := by
  decide

/-- C9: `get_recent n` equals `get_all` whenever `n` is at least the number
of retained lines; `get_recent 0` and `get_recent` on an empty buffer return
the empty string. -/
theorem get_recent_vs_get_all (b : CircularOutputBuffer) (n : Nat) :
    (b.buffer.length ≤ n → b.get_recent n = b.get_all)
    ∧ b.get_recent 0 = []
    ∧ (b.buffer = [] → b.get_recent n = []) := by
  refine ⟨?_, ?_, ?_⟩
  · intro h
    unfold CircularOutputBuffer.get_recent CircularOutputBuffer.get_all
    have hmin : min n b.buffer.length = b.buffer.length := min_eq_right h
    by_cases hz : b.buffer.length = 0
    · rw [List.length_eq_zero] at hz
      simp [hz]
    · simp only [hmin, if_neg hz, Nat.sub_self, List.drop_zero]
  · simp [CircularOutputBuffer.get_recent]
  · intro h
    simp [CircularOutputBuffer.get_recent, h]

/-- Witness for C9 at concrete inputs: a two-line buffer with `n = 5`, and an
empty buffer with `n = 7`. -/
theorem get_recent_vs_get_all_witness :
    (⟨[['a', '\n'], ['b', '\n']], 10, 1024, 4⟩ : CircularOutputBuffer).get_recent 5
        = (⟨[['a', '\n'], ['b', '\n']], 10, 1024, 4⟩ : CircularOutputBuffer).get_all
      ∧ (⟨[['a', '\n'], ['b', '\n']], 10, 1024, 4⟩ : CircularOutputBuffer).get_recent 0 = []
      ∧ (⟨[], 10, 1024, 0⟩ : CircularOutputBuffer).get_recent 7 = [] :=
  ⟨(get_recent_vs_get_all ⟨[['a', '\n'], ['b', '\n']], 10, 1024, 4⟩ 5).1 (by decide),
   (get_recent_vs_get_all ⟨[['a', '\n'], ['b', '\n']], 10, 1024, 4⟩ 5).2.1,
   (get_recent_vs_get_all ⟨[], 10, 1024, 0⟩ 7).2.2 rfl⟩

/-! ## Association-list lemmas -/

theorem ProcMap.get_remove_self (m : ProcMap) (i : Int) :
    (m.remove i).get i = none := by
  induction m with
  | nil => rfl
  | cons p rest ih =>
      obtain ⟨k, h⟩ := p
      unfold ProcMap.remove
      by_cases hk : k = i
      · rw [if_pos hk]; exact ih
      · rw [if_neg hk]; unfold ProcMap.get; rw [if_neg hk]; exact ih

theorem ProcMap.get_remove_ne (m : ProcMap) (i j : Int) (hne : i ≠ j) :
    (m.remove i).get j = m.get j := by
  induction m with
  | nil => rfl
  | cons p rest ih =>
      obtain ⟨k, h⟩ := p
      simp only [ProcMap.remove]
      by_cases hk : k = i
      · subst hk
        rw [if_pos rfl]
        simp only [ProcMap.get, if_neg hne]
        exact ih
      · rw [if_neg hk]
        simp only [ProcMap.get]
        by_cases hkj : k = j
        · simp only [if_pos hkj]
        · simp only [if_neg hkj]
          exact ih

theorem ProcMap.get_insert_self (m : ProcMap) (i : Int) (h : ProcessHandle) :
    (m.insert i h).get i = some h := by
  simp only [ProcMap.insert, ProcMap.get, if_pos rfl, eq_self_iff_true, if_true]

theorem ProcMap.get_insert_ne (m : ProcMap) (i : Int) (h : ProcessHandle)
    (j : Int) (hne : i ≠ j) : (m.insert i h).get j = m.get j := by
  simp only [ProcMap.insert, ProcMap.get, if_neg hne]
  exact ProcMap.get_remove_ne m i j hne

theorem ProcMap.get_modify (m : ProcMap) (i : Int)
    (f : ProcessHandle → ProcessHandle) (j : Int) :
    (m.modify i f).get j = if i = j then (m.get i).map f else m.get j := by
  induction m with
  | nil =>
      simp only [ProcMap.modify, ProcMap.get]
      split <;> rfl
  | cons p rest ih =>
      obtain ⟨k, h⟩ := p
      by_cases hki : k = i
      · subst hki
        by_cases hkj : k = j
        · subst hkj
          simp only [ProcMap.modify, ProcMap.get, if_pos rfl]
          rfl
        · simp only [ProcMap.modify, ProcMap.get, if_pos rfl, if_neg hkj, ih]
      · by_cases hkj : k = j
        · subst hkj
          have hij : i ≠ k := fun hh => hki hh.symm
          simp only [ProcMap.modify, ProcMap.get, if_neg hki, if_pos rfl,
            eq_self_iff_true, if_true, if_neg hij]
        · by_cases hij : i = j
          · subst hij
            simp only [ProcMap.modify, ProcMap.get, if_neg hki, if_neg hkj,
              ih, if_pos rfl]
          · simp only [ProcMap.modify, ProcMap.get, if_neg hki, if_neg hkj,
              ih, if_neg hij]

theorem ProcMap.isSome_get_iff_mem_keys (m : ProcMap) (i : Int) :
    (m.get i).isSome ↔ i ∈ m.keys := by
  induction m with
  | nil => simp [ProcMap.get, ProcMap.keys]
  | cons p rest ih =>
      obtain ⟨k, h⟩ := p
      by_cases hk : k = i
      · subst hk
        simp [ProcMap.get, ProcMap.keys]
      · have hik : i ≠ k := fun hh => hk hh.symm
        simp only [ProcMap.get, if_neg hk, ProcMap.keys, List.map_cons,
          List.mem_cons]
        rw [ih]
        constructor
        · intro hmem; exact Or.inr hmem
        · rintro (hh | hmem)
          · exact absurd hh hik
          · exact hmem

/-! ## Kill-path lemmas -/

/-- The `kill_wait_cleanup` always reports success and always ends with the
record gone from the table. -/
theorem kill_wait_cleanup_removes (env : KillEnv) (r : ProcessRegistry)
    (run_id : Int) (pid : Nat) :
    (ProcessRegistry.kill_wait_cleanup env r run_id pid).1 = true
    ∧ ((ProcessRegistry.kill_wait_cleanup env r run_id pid).2).processes.get
        run_id = none := by
  refine ⟨rfl, ?_⟩
  unfold ProcessRegistry.kill_wait_cleanup
  dsimp only [ProcessRegistry.unregister_process]
  exact ProcMap.get_remove_self _ _

/-! ## Claim theorems about the registry -/

/-- C5: `kill_process` returns `false` exactly on ids absent from the table,
leaving the registry untouched; for every present id and every combination
of OS outcomes (signal accepted, fallback kill, already exited, wait error
or timeout) it returns `true` with the record removed by the time it
returns. -/
theorem kill_process_unknown_and_present (env : KillEnv) (r : ProcessRegistry)
    (run_id : Int) :
    (r.processes.get run_id = none →
        ProcessRegistry.kill_process env r run_id = (false, r))
    ∧ (∀ h, r.processes.get run_id = some h →
        (ProcessRegistry.kill_process env r run_id).1 = true
        ∧ ((ProcessRegistry.kill_process env r run_id).2).processes.get run_id
            = none) := by
  constructor
  · intro hnone
    unfold ProcessRegistry.kill_process
    rw [hnone]
  · intro h hget
    unfold ProcessRegistry.kill_process
    rw [hget]
    dsimp only
    by_cases hks : (h.child.isSome && env.start_kill_ok) = true
    · rw [if_pos hks]
      exact kill_wait_cleanup_removes env r run_id h.info.pid
    · rw [if_neg hks]
      cases hf : env.fallback with
      | success =>
          dsimp only [ProcessRegistry.kill_process_by_pid]
          exact ⟨rfl, ProcMap.get_remove_self _ _⟩
      | failure =>
          dsimp only [ProcessRegistry.kill_process_by_pid]
          exact kill_wait_cleanup_removes env r run_id h.info.pid
      | execError =>
          dsimp only [ProcessRegistry.kill_process_by_pid]
          exact kill_wait_cleanup_removes env r run_id h.info.pid

/-- Witness for C5: an unknown id on the empty registry, and a present id on
`sampleReg`, under the `sampleEnv` outcomes. -/
theorem kill_process_unknown_and_present_witness :
    ProcessRegistry.kill_process sampleEnv ProcessRegistry.new 5
        = (false, ProcessRegistry.new)
    ∧ ((ProcessRegistry.kill_process sampleEnv sampleReg 1).1 = true
       ∧ ((ProcessRegistry.kill_process sampleEnv sampleReg 1).2).processes.get 1
           = none) :=
  ⟨(kill_process_unknown_and_present sampleEnv ProcessRegistry.new 5).1 rfl,
   (kill_process_unknown_and_present sampleEnv sampleReg 1).2
     (ProcessRegistry.create_handle sampleInfo none) rfl⟩

/-- C10: when the run is present but no kill signal went through the held
handle (no handle, or `start_kill` failed) and the fallback
`kill_process_by_pid` reports success, `kill_process` returns `true`
immediately with the table exactly as the fallback left it (the record
already removed); the conclusion does not depend on `env.wait` or
`env.timeout_fallback`, i.e. the wait-for-exit phase is skipped. -/
theorem kill_process_fallback_short_circuit (env : KillEnv)
    (r : ProcessRegistry) (run_id : Int) (h : ProcessHandle)
    (hget : r.processes.get run_id = some h)
    (hnosig : h.child = none ∨ env.start_kill_ok = false)
    (hfb : env.fallback = .success) :
    ProcessRegistry.kill_process env r run_id
        = (true, r.unregister_process run_id)
    ∧ ProcessRegistry.kill_process_by_pid env.fallback r run_id h.info.pid
        = .ok (true, r.unregister_process run_id) := by
  have hks : (h.child.isSome && env.start_kill_ok) = false := by
    rcases hnosig with h1 | h1
    · rw [h1]; rfl
    · rw [h1, Bool.and_false]
  constructor
  · unfold ProcessRegistry.kill_process
    rw [hget]
    dsimp only
    rw [hks, if_neg Bool.false_ne_true, hfb]
    rfl
  · rw [hfb]
    rfl

/-- Witness for C10: `sampleReg`'s only record holds no child handle and the
fallback kill succeeds. -/
theorem kill_process_fallback_short_circuit_witness :
    ProcessRegistry.kill_process ⟨true, .success, .timedOut, .failure⟩
        sampleReg 1 = (true, sampleReg.unregister_process 1)
    ∧ ProcessRegistry.kill_process_by_pid
        (KillEnv.mk true .success .timedOut .failure).fallback sampleReg 1
        (ProcessRegistry.create_handle sampleInfo none).info.pid
        = .ok (true, sampleReg.unregister_process 1) :=
  kill_process_fallback_short_circuit ⟨true, .success, .timedOut, .failure⟩
    sampleReg 1 (ProcessRegistry.create_handle sampleInfo none) rfl
    (Or.inl rfl) rfl

/-- C8: output operations on an unknown run id: `append_live_output`
succeeds without touching any state, and both output queries return the
empty string rather than an error. -/
theorem output_ops_unknown_id (r : ProcessRegistry) (i : Int)
    (text : List Char) (n : Nat) (hnone : r.processes.get i = none) :
    ProcessRegistry.append_live_output r i text = some r
    ∧ ProcessRegistry.get_live_output r i = []
    ∧ ProcessRegistry.get_recent_live_output r i n = [] := by
  refine ⟨?_, ?_, ?_⟩
  · unfold ProcessRegistry.append_live_output
    rw [hnone]
  · unfold ProcessRegistry.get_live_output
    rw [hnone]
  · unfold ProcessRegistry.get_recent_live_output
    rw [hnone]

/-- Witness for C8: id 5 on the empty registry. -/
theorem output_ops_unknown_id_witness :
    ProcessRegistry.append_live_output ProcessRegistry.new 5 ['x']
        = some ProcessRegistry.new
    ∧ ProcessRegistry.get_live_output ProcessRegistry.new 5 = []
    ∧ ProcessRegistry.get_recent_live_output ProcessRegistry.new 5 3 = [] :=
  output_ops_unknown_id ProcessRegistry.new 5 ['x'] 3 rfl

/-! ## Registration-replacement and removal-op lemmas -/

/-- The `is_process_running` never changes whether an id is present: its only
mutation is the in-place clearing of a child handle. -/
theorem is_process_running_get_isSome (r : ProcessRegistry) (ri j : Int) :
    (((ProcessRegistry.is_process_running r ri).2).processes.get j).isSome
      = (r.processes.get j).isSome := by
  unfold ProcessRegistry.is_process_running
  cases hget : r.processes.get ri with
  | none => rfl
  | some handle =>
      dsimp only
      cases hc : handle.child with
      | none => rfl
      | some st =>
          cases st with
          | running => rfl
          | exited =>
              dsimp only [ProcessRegistry.clear_child]
              rw [ProcMap.get_modify]
              by_cases hij : ri = j
              · subst hij
                rw [if_pos rfl, hget]
                rfl
              · rw [if_neg hij]
          | probeError =>
              dsimp only [ProcessRegistry.clear_child]
              rw [ProcMap.get_modify]
              by_cases hij : ri = j
              · subst hij
                rw [if_pos rfl, hget]
                rfl
              · rw [if_neg hij]

/-- C6 counterexample: registering run id 1 twice silently replaces the
first record — `get_process` afterwards returns the second `ProcessInfo`,
not the first, although no removal operation ran. -/
theorem reregistration_discards_record :
    ((ProcessRegistry.new.register_process_internal 1 sampleInfo
        none).register_process_internal 1 sampleInfoB none).get_process 1
      = some sampleInfoB
    ∧ sampleInfoB ≠ sampleInfo := by
  constructor
  · rfl
  · decide

/-- C6 amended: an id present in the table can only *disappear* through
`unregister_process`, `kill_process`, `kill_process_by_pid` or
`cleanup_finished_processes`; registering an already-present id, however,
silently replaces the stored record while keeping the id present. -/
theorem removal_only_by_removal_ops (op : RegOp) (r r' : ProcessRegistry)
    (i : Int) (hpres : (r.processes.get i).isSome = true)
    (hstep : op.step r = some r')
    (habs : r'.processes.get i = none) :
    (∃ j, op = .unregister j) ∨ (∃ e j, op = .kill e j)
    ∨ (∃ e j p, op = .killByPid e j p) ∨ op = .cleanup := by
  cases op with
  | register run_id info child =>
      exfalso
      injection hstep with h'
      subst h'
      dsimp only [ProcessRegistry.register_process_internal] at habs
      by_cases hri : run_id = i
      · subst hri
        rw [ProcMap.get_insert_self] at habs
        exact Option.noConfusion habs
      · rw [ProcMap.get_insert_ne _ _ _ _ hri] at habs
        rw [habs] at hpres
        exact Bool.noConfusion hpres
  | unregister j => exact Or.inl ⟨j, rfl⟩
  | kill e j => exact Or.inr (Or.inl ⟨e, j, rfl⟩)
  | killByPid e j p => exact Or.inr (Or.inr (Or.inl ⟨e, j, p, rfl⟩))
  | cleanup => exact Or.inr (Or.inr (Or.inr rfl))
  | appendOutput run_id text =>
      exfalso
      simp only [RegOp.step] at hstep
      unfold ProcessRegistry.append_live_output at hstep
      split at hstep
      · injection hstep with h'
        subst h'
        rw [habs] at hpres
        exact Bool.noConfusion hpres
      · rename_i handle hget
        split at hstep
        · exact Option.noConfusion hstep
        · rename_i buf hbuf
          injection hstep with h'
          subst h'
          dsimp only at habs
          rw [ProcMap.get_modify] at habs
          by_cases hri : run_id = i
          · subst hri
            rw [if_pos rfl, hget] at habs
            exact Option.noConfusion habs
          · rw [if_neg hri] at habs
            rw [habs] at hpres
            exact Bool.noConfusion hpres
  | isRunning run_id =>
      exfalso
      injection hstep with h'
      subst h'
      have hiso := is_process_running_get_isSome r run_id i
      rw [habs] at hiso
      rw [← hiso] at hpres
      exact Bool.noConfusion hpres

/-- Witness for the C6 amended theorem: `unregister_process` removing the
only record of `sampleReg`. -/
theorem removal_only_by_removal_ops_witness :
    (∃ j, RegOp.unregister 1 = RegOp.unregister j)
    ∨ (∃ e j, RegOp.unregister 1 = RegOp.kill e j)
    ∨ (∃ e j p, RegOp.unregister 1 = RegOp.killByPid e j p)
    ∨ RegOp.unregister 1 = RegOp.cleanup :=
  removal_only_by_removal_ops (RegOp.unregister 1) sampleReg
    (sampleReg.unregister_process 1) 1 rfl rfl rfl

/-! ## Cleanup lemmas -/

/-- The boolean reported by `is_process_running` depends only on the record
stored at the probed id. -/
theorem is_process_running_fst (r : ProcessRegistry) (i : Int) :
    (ProcessRegistry.is_process_running r i).1
      = (r.processes.get i).elim false (fun h => childRunning h.child) := by
  unfold ProcessRegistry.is_process_running
  cases hget : r.processes.get i with
  | none => rfl
  | some handle =>
      dsimp only [Option.elim]
      cases hc : handle.child with
      | none => rfl
      | some st => cases st <;> rfl

/-- Registries agreeing at a key report the same `is_process_running` bool. -/
theorem is_process_running_fst_congr (r r' : ProcessRegistry) (i : Int)
    (h : r.processes.get i = r'.processes.get i) :
    (ProcessRegistry.is_process_running r i).1
      = (ProcessRegistry.is_process_running r' i).1 := by
  rw [is_process_running_fst, is_process_running_fst, h]

/-- Probing one id leaves the records stored under every other id intact. -/
theorem is_process_running_snd_get_ne (r : ProcessRegistry) (ri j : Int)
    (hne : ri ≠ j) :
    ((ProcessRegistry.is_process_running r ri).2).processes.get j
      = r.processes.get j := by
  unfold ProcessRegistry.is_process_running
  cases hget : r.processes.get ri with
  | none => rfl
  | some handle =>
      dsimp only
      cases hc : handle.child with
      | none => rfl
      | some st =>
          cases st with
          | running => rfl
          | exited =>
              dsimp only [ProcessRegistry.clear_child]
              rw [ProcMap.get_modify, if_neg hne]
          | probeError =>
              dsimp only [ProcessRegistry.clear_child]
              rw [ProcMap.get_modify, if_neg hne]

/-- A probe that reports `true` mutates nothing at all. -/
theorem is_process_running_snd_of_true (r : ProcessRegistry) (i : Int)
    (htrue : (ProcessRegistry.is_process_running r i).1 = true) :
    (ProcessRegistry.is_process_running r i).2 = r := by
  unfold ProcessRegistry.is_process_running at htrue ⊢
  cases hget : r.processes.get i with
  | none => rfl
  | some handle =>
      rw [hget] at htrue
      dsimp only at htrue ⊢
      cases hc : handle.child with
      | none => rw [hc] at htrue
      | some st =>
          rw [hc] at htrue
          cases st with
          | running => rfl
          | exited => exact Bool.noConfusion htrue
          | probeError => exact Bool.noConfusion htrue

/-- Removing a batch of ids: everything in the batch is gone, everything
else is untouched. -/
theorem foldl_unregister_get (ids : List Int) :
    ∀ (r : ProcessRegistry) (i : Int),
      (ids.foldl (fun acc j => acc.unregister_process j) r).processes.get i
        = if i ∈ ids then none else r.processes.get i := by
  induction ids with
  | nil =>
      intro r i
      simp
  | cons a rest ih =>
      intro r i
      simp only [List.foldl_cons]
      rw [ih]
      by_cases hmem : i ∈ rest
      · rw [if_pos hmem, if_pos (List.mem_cons_of_mem a hmem)]
      · rw [if_neg hmem]
        dsimp only [ProcessRegistry.unregister_process]
        by_cases hia : a = i
        · subst hia
          rw [ProcMap.get_remove_self, if_pos (List.mem_cons_self a rest)]
        · have hni : i ∉ a :: rest := by
            intro hy
            rcases List.mem_cons.mp hy with h1 | h1
            · exact hia h1.symm
            · exact hmem h1
          rw [ProcMap.get_remove_ne _ _ _ hia, if_neg hni]

/-- Unfolding `cleanup_pass` on a cons cell: collected ids. -/
theorem cleanup_pass_cons_fst (r : ProcessRegistry) (a : Int)
    (rest : List Int) :
    (ProcessRegistry.cleanup_pass r (a :: rest)).1
      = (if (ProcessRegistry.is_process_running r a).1
          then (ProcessRegistry.cleanup_pass
              ((ProcessRegistry.is_process_running r a).2) rest).1
          else a :: (ProcessRegistry.cleanup_pass
              ((ProcessRegistry.is_process_running r a).2) rest).1) := rfl

/-- Unfolding `cleanup_pass` on a cons cell: resulting registry. -/
theorem cleanup_pass_cons_snd (r : ProcessRegistry) (a : Int)
    (rest : List Int) :
    (ProcessRegistry.cleanup_pass r (a :: rest)).2
      = (ProcessRegistry.cleanup_pass
          ((ProcessRegistry.is_process_running r a).2) rest).2 := rfl

/-- Behaviour of the probing pass over a duplicate-free id batch: an id is
collected iff it is in the batch and probes as not running; records outside
the batch, and records probing as running, keep their stored value. -/
theorem cleanup_pass_spec (ids : List Int) :
    ∀ r : ProcessRegistry, ids.Nodup →
      (∀ i, i ∈ (ProcessRegistry.cleanup_pass r ids).1
          ↔ (i ∈ ids ∧ (ProcessRegistry.is_process_running r i).1 = false))
      ∧ (∀ i, i ∉ ids →
          ((ProcessRegistry.cleanup_pass r ids).2).processes.get i
            = r.processes.get i)
      ∧ (∀ i, (ProcessRegistry.is_process_running r i).1 = true →
          ((ProcessRegistry.cleanup_pass r ids).2).processes.get i
            = r.processes.get i) := by
  induction ids with
  | nil =>
      intro r _
      refine ⟨?_, ?_, ?_⟩
      · intro i
        simp [ProcessRegistry.cleanup_pass]
      · intro i _
        rfl
      · intro i _
        rfl
  | cons a rest ih =>
      intro r hnd
      have ha : a ∉ rest := (List.nodup_cons.mp hnd).1
      have hnd' : rest.Nodup := (List.nodup_cons.mp hnd).2
      obtain ⟨IH1, IH2, IH3⟩ :=
        ih (ProcessRegistry.is_process_running r a).2 hnd'
      have hagree : ∀ j, j ≠ a →
          ((ProcessRegistry.is_process_running r a).2).processes.get j
            = r.processes.get j := by
        intro j hj
        exact is_process_running_snd_get_ne r a j (fun hh => hj hh.symm)
      have hprobe : ∀ j, j ≠ a →
          (ProcessRegistry.is_process_running
              ((ProcessRegistry.is_process_running r a).2) j).1
            = (ProcessRegistry.is_process_running r j).1 := by
        intro j hj
        exact is_process_running_fst_congr _ _ j (hagree j hj)
      refine ⟨?_, ?_, ?_⟩
      · intro i
        rw [cleanup_pass_cons_fst]
        by_cases hpa : (ProcessRegistry.is_process_running r a).1 = true
        · rw [if_pos hpa, IH1 i]
          constructor
          · rintro ⟨hir, hpf⟩
            have hia : i ≠ a := fun hh => ha (hh ▸ hir)
            exact ⟨List.mem_cons_of_mem a hir, (hprobe i hia).symm.trans hpf⟩
          · rintro ⟨hmem, hpf⟩
            rcases List.mem_cons.mp hmem with rfl | hir
            · exact Bool.noConfusion (hpa.symm.trans hpf)
            · have hia : i ≠ a := fun hh => ha (hh ▸ hir)
              exact ⟨hir, (hprobe i hia).trans hpf⟩
        · have hpa' : (ProcessRegistry.is_process_running r a).1 = false := by
            revert hpa
            cases (ProcessRegistry.is_process_running r a).1 <;> simp
          rw [if_neg hpa]
          constructor
          · intro hmem
            rcases List.mem_cons.mp hmem with rfl | hq
            · exact ⟨List.mem_cons_self i rest, hpa'⟩
            · obtain ⟨hir, hpf⟩ := (IH1 i).mp hq
              have hia : i ≠ a := fun hh => ha (hh ▸ hir)
              exact ⟨List.mem_cons_of_mem a hir, (hprobe i hia).symm.trans hpf⟩
          · rintro ⟨hmem, hpf⟩
            rcases List.mem_cons.mp hmem with rfl | hir
            · exact List.mem_cons_self i _
            · have hia : i ≠ a := fun hh => ha (hh ▸ hir)
              exact List.mem_cons_of_mem a
                ((IH1 i).mpr ⟨hir, (hprobe i hia).trans hpf⟩)
      · intro i hni
        have hia : i ≠ a := fun hh => hni (hh ▸ List.mem_cons_self a rest)
        have hirest : i ∉ rest := fun hh => hni (List.mem_cons_of_mem a hh)
        rw [cleanup_pass_cons_snd, IH2 i hirest, hagree i hia]
      · intro i hpt
        rw [cleanup_pass_cons_snd]
        by_cases hia : i = a
        · subst hia
          have hr2 := is_process_running_snd_of_true r i hpt
          rw [hr2] at IH2 ⊢
          exact IH2 i ha
        · have h1 := hprobe i hia
          rw [IH3 i (h1.trans hpt), hagree i hia]

/-- C7: with duplicate-free keys, `cleanup_finished_processes` removes
exactly the registered ids that `is_process_running` reports as not running
— which includes every record holding no child handle — returns precisely
those ids, and leaves every other record present with its stored value. -/
theorem cleanup_finished_spec (r : ProcessRegistry)
    (hnd : r.processes.keys.Nodup) :
    (∀ i, i ∈ (r.cleanup_finished_processes).1 ↔
        ((r.processes.get i).isSome
          ∧ (ProcessRegistry.is_process_running r i).1 = false))
    ∧ (∀ i, (ProcessRegistry.is_process_running r i).1 = false →
        ((r.cleanup_finished_processes).2).processes.get i = none)
    ∧ (∀ i h, r.processes.get i = some h →
        (ProcessRegistry.is_process_running r i).1 = true →
        ((r.cleanup_finished_processes).2).processes.get i = some h)
    ∧ (∀ i h, r.processes.get i = some h → h.child = none →
        i ∈ (r.cleanup_finished_processes).1) := by
  obtain ⟨P1, P2, P3⟩ := cleanup_pass_spec r.processes.keys r hnd
  have hfin : (r.cleanup_finished_processes).1
      = (ProcessRegistry.cleanup_pass r r.processes.keys).1 := rfl
  have hsnd : (r.cleanup_finished_processes).2
      = ((ProcessRegistry.cleanup_pass r r.processes.keys).1).foldl
          (fun acc j => acc.unregister_process j)
          ((ProcessRegistry.cleanup_pass r r.processes.keys).2) := rfl
  have hA : ∀ i, i ∈ (r.cleanup_finished_processes).1 ↔
      ((r.processes.get i).isSome
        ∧ (ProcessRegistry.is_process_running r i).1 = false) := by
    intro i
    rw [hfin, P1 i, ← ProcMap.isSome_get_iff_mem_keys]
  refine ⟨hA, ?_, ?_, ?_⟩
  · intro i hpf
    by_cases hmem : i ∈ (r.cleanup_finished_processes).1
    · rw [hsnd, foldl_unregister_get, if_pos (hfin ▸ hmem)]
    · have hnotsome : ¬ ((r.processes.get i).isSome = true) := by
        intro hs
        exact hmem ((hA i).mpr ⟨hs, hpf⟩)
      have hnone : r.processes.get i = none := by
        cases hg : r.processes.get i with
        | none => rfl
        | some hh => exact absurd (by rw [hg]; rfl) hnotsome
      have hik : i ∉ r.processes.keys := fun hk =>
        hnotsome ((ProcMap.isSome_get_iff_mem_keys r.processes i).mpr hk)
      rw [hsnd, foldl_unregister_get, if_neg (hfin ▸ hmem), P2 i hik, hnone]
  · intro i h hget hpt
    have hnotin : i ∉ (r.cleanup_finished_processes).1 := by
      intro hmem
      obtain ⟨_, hpf⟩ := (hA i).mp hmem
      exact Bool.noConfusion (hpt.symm.trans hpf)
    rw [hsnd, foldl_unregister_get, if_neg (hfin ▸ hnotin), P3 i hpt, hget]
  · intro i h hget hchild
    apply (hA i).mpr
    refine ⟨by rw [hget]; rfl, ?_⟩
    rw [is_process_running_fst, hget]
    dsimp only [Option.elim]
    rw [hchild]
    rfl

/-- Witness for C7 on `sampleReg3`: the exited record (id 2) is reported and
removed, the handle-less record (id 3) is reported, and the running record
(id 1) survives unchanged. -/
theorem cleanup_finished_spec_witness :
    2 ∈ (sampleReg3.cleanup_finished_processes).1
    ∧ ((sampleReg3.cleanup_finished_processes).2).processes.get 2 = none
    ∧ ((sampleReg3.cleanup_finished_processes).2).processes.get 1
        = some { info := sampleInfo, child := some .running
                 live_output := CircularOutputBuffer.new 1000 (1024 * 1024) }
    ∧ 3 ∈ (sampleReg3.cleanup_finished_processes).1 :=
  have S := cleanup_finished_spec sampleReg3 (by decide)
  ⟨(S.1 2).mpr ⟨by rfl, by rfl⟩,
   S.2.1 2 (by rfl),
   S.2.2.1 1 { info := sampleInfo, child := some .running
               live_output := CircularOutputBuffer.new 1000 (1024 * 1024) }
     rfl rfl,
   S.2.2.2 3 { info := sampleInfo, child := none
               live_output := CircularOutputBuffer.new 1000 (1024 * 1024) }
     rfl rfl⟩
